import Mathlib

/-!
# Verification of the opendht secure overlay (`SecureDht`)

A shallow embedding of `src/securedht.cpp` together with the parts of the
value and crypto model it depends on.  The logic of `SecureDht` (policies,
receive pipeline, certificate resolution, signed/encrypted puts) is
translated directly from `securedht.cpp`.  The crypto primitives and the
`Value` serialization helpers (`crypto.cpp`, `value.h`) are not part of the
repository excerpt; they are modelled symbolically from the specification:
an RSA signature is the pair (signing key, signed content), an RSA
ciphertext is the pair (target public key, payload), and `getToSign` /
`getToEncrypt` are the records of the fields the spec says they serialize.
-/

namespace OpenDht

/-- 160-bit identifiers, modelled symbolically.  `key pk` is the id derived
from a public key (`PublicKey::getId`), `nodeTag pk` is the node id
`InfoHash::get("node:" + hex(pk id))` computed in the `SecureDht`
constructor, `rand n` is a random id (`InfoHash::getRandom`), and `zero` is
the default-constructed `InfoHash()`. -/
inductive InfoHash where
  | zero
  | key (pk : Nat)
  | nodeTag (pk : Nat)
  | rand (n : Nat)
deriving DecidableEq, Repr

/-- A public RSA key.  Modelled symbolically by a key number; its `InfoHash`
(the digest of the DER encoding) is the injective image of that number. -/
structure PublicKey where
  pk : Nat
deriving DecidableEq, Repr

/-- `PublicKey::getId`: the 160-bit digest of the key. -/
def PublicKey.getId (k : PublicKey) : InfoHash := InfoHash.key k.pk

/-- A private RSA key, symbolically the same key number as its public
half. -/
structure PrivateKey where
  k : Nat
deriving DecidableEq, Repr

/-- `PrivateKey::getPublicKey`. -/
def PrivateKey.getPublicKey (sk : PrivateKey) : PublicKey := ⟨sk.k⟩

/-- A byte blob.  Modelled from the spec: a blob either holds opaque bytes
or the DER serialization of a certificate (the only structured payload the
overlay parses back out of a blob). -/
inductive Blob where
  | bytes (l : List Nat)
  | certBlob (pk : Nat)
deriving DecidableEq, Repr

/-- An X.509 certificate; the overlay only uses the enclosed public key. -/
structure Certificate where
  pk : PublicKey
deriving DecidableEq, Repr

/-- `Certificate::getPublicKey`. -/
def Certificate.getPublicKey (c : Certificate) : PublicKey := c.pk

/-- `Certificate::getId` (same as `getPublicKey().getId()`). -/
def Certificate.getId (c : Certificate) : InfoHash := c.pk.getId

/-- Modelled from the spec: `Certificate(const Blob&)` parses a blob as a
certificate and throws on malformed input (here: `none`). -/
def Certificate.fromBlob : Blob → Option Certificate
  | Blob.certBlob pk => some ⟨⟨pk⟩⟩
  | Blob.bytes _ => none

/-- The 3-bit value flags `{ signed, encrypted, have_recipient }` of the
spec data model; `recipientFlag` is `flags[2]` in the code. -/
structure ValueFlags where
  signedFlag : Bool
  encryptedFlag : Bool
  recipientFlag : Bool
deriving DecidableEq, Repr

/-- The authenticated region of a value.  Modelled from the spec:
`getToSign()` covers id, type, flags, owner key, recipient and data (the
sequence number is not part of the signable region in the wire format of
the spec). -/
structure SignedPart where
  id : Nat
  vtype : Nat
  flags : ValueFlags
  owner : Option PublicKey
  recipient : InfoHash
  data : Blob
deriving DecidableEq, Repr

/-- A symbolic RSA signature: `some (k, d)` is a valid signature of content
`d` by the private key numbered `k`; anything else fails verification. -/
def Signature := Option (Nat × SignedPart)
deriving DecidableEq, Repr

/-- A symbolic RSA ciphertext: the public key the payload was encrypted to,
and the payload (the `getToEncrypt` region of the inner value). -/
structure CipherText where
  toKey : PublicKey
  payload : SignedPart × Signature
deriving DecidableEq, Repr

/-- `PrivateKey::sign`: produce the symbolic signature. -/
def PrivateKey.sign (sk : PrivateKey) (d : SignedPart) : Signature :=
  some (sk.k, d)

/-- `PublicKey::checkSignature`. -/
def PublicKey.checkSignature (k : PublicKey) (d : SignedPart) (s : Signature) : Bool :=
  s = some (k.pk, d)

/-- `v->owner.checkSignature(...)` where the owner key of an unsigned value
is the empty `PublicKey`, whose verification always fails. -/
def ownerCheckSignature (o : Option PublicKey) (d : SignedPart) (s : Signature) : Bool :=
  match o with
  | some k => k.checkSignature d s
  | none => false

/-- `v->owner.getId()`; the empty `PublicKey` has the zero id. -/
def ownerGetId (o : Option PublicKey) : InfoHash :=
  match o with
  | some k => k.getId
  | none => InfoHash.zero

/-- `PublicKey::encrypt` (block-wise RSA), symbolically. -/
def PublicKey.encrypt (k : PublicKey) (p : SignedPart × Signature) : CipherText :=
  ⟨k, p⟩

/-- The DHT value of the spec data model. -/
structure Value where
  id : Nat
  vtype : Nat := 0
  flags : ValueFlags := ⟨false, false, false⟩
  owner : Option PublicKey := none
  recipient : InfoHash := InfoHash.zero
  data : Blob := Blob.bytes []
  cypher : Option CipherText := none
  signature : Signature := none
  seq : Nat := 0
deriving DecidableEq, Repr

/-- `Value::isSigned`. -/
def Value.isSigned (v : Value) : Bool := v.flags.signedFlag

/-- `Value::isEncrypted`. -/
def Value.isEncrypted (v : Value) : Bool := v.flags.encryptedFlag

/-- Modelled from the spec: `Value::getToSign` serializes the authenticated
fields (id, type, flags, owner, recipient, data). -/
def Value.getToSign (v : Value) : SignedPart :=
  ⟨v.id, v.vtype, v.flags, v.owner, v.recipient, v.data⟩

/-- Modelled from the spec: `Value::getToEncrypt` is `getToSign` plus the
signature, so that decryption reconstructs a full signed value. -/
def Value.getToEncrypt (v : Value) : SignedPart × Signature :=
  (v.getToSign, v.signature)

/-- Modelled from the spec: `Value::setRecipient` stores the recipient id
and raises the `have_recipient` flag. -/
def Value.setRecipient (v : Value) (r : InfoHash) : Value :=
  { v with recipient := r, flags := { v.flags with recipientFlag := true } }

/-- Modelled from the spec: `Value::setCypher` stores the ciphertext and
raises the `encrypted` flag. -/
def Value.setCypher (v : Value) (c : CipherText) : Value :=
  { v with cypher := some c, flags := { v.flags with encryptedFlag := true } }

/-- `PrivateKey::decrypt` followed by `unpackBody` on `Value ret {v.id}`:
the ciphertext is recovered only by the matching private key
(`DecryptError` otherwise) and parses back into a signed value whose id is
the outer value's id; the wire format of a signed value does not carry the
sequence number, so it unpacks to its default. -/
def unpackDecrypted (outerId : Nat) (p : SignedPart × Signature) : Value :=
  { id := outerId, vtype := p.1.vtype, flags := p.1.flags, owner := p.1.owner,
    recipient := p.1.recipient, data := p.1.data, cypher := none,
    signature := p.2, seq := 0 }

/-- `SecureDht::sign` (securedht.cpp:331-339): refuse encrypted values, set
the owner to the own public key, force flags to
`(signed := true, encrypted := false, have_recipient := flags[2])`, then
sign the resulting `getToSign` region with the own private key. -/
def signValue (sk : PrivateKey) (v : Value) : Except String Value :=
  if v.flags.encryptedFlag then Except.error "Cant sign encrypted data."
  else
    let v1 : Value := { v with owner := some sk.getPublicKey,
                               flags := ⟨true, false, v.flags.recipientFlag⟩ }
    Except.ok { v1 with signature := sk.sign v1.getToSign }

/-- `SecureDht::encrypt` (securedht.cpp:341-351): refuse already-encrypted
values; set the recipient to the target key id, sign, then build a fresh
value with the same id whose only content is the ciphertext of
`getToEncrypt`. -/
def encryptValue (sk : PrivateKey) (v : Value) (toPk : PublicKey) : Except String Value :=
  if v.flags.encryptedFlag then Except.error "Data is already encrypted."
  else
    match signValue sk (v.setRecipient toPk.getId) with
    | Except.error e => Except.error e
    | Except.ok v2 =>
        Except.ok (Value.setCypher { id := v.id } (toPk.encrypt v2.getToEncrypt))

/-- `SecureDht::decrypt` (securedht.cpp:353-363): refuse non-encrypted
values, decrypt the cypher with the own private key and unpack the result
into a value carrying the outer id. -/
def decryptValue (sk : PrivateKey) (v : Value) : Except String Value :=
  if ¬ v.flags.encryptedFlag then Except.error "Data is not encrypted."
  else
    match v.cypher with
    | none => Except.error "DecryptError"
    | some c =>
        if c.toKey = sk.getPublicKey then Except.ok (unpackDecrypted v.id c.payload)
        else Except.error "DecryptError"

/-- Modelled from the spec: `SecureDht::getId` (declared in the missing
securedht.h) returns the overlay instance's own identity id — the "self.id"
of the spec, i.e. the id of its own public key — which is distinct from the
underlying DHT node id `InfoHash::get("node:" + ...)`.  All three uses in
securedht.cpp (certificate cache self-lookup, recipient check, own-value
check in putSigned) compare it against public-key ids. -/
def selfIdOf (sk : PrivateKey) : InfoHash := sk.getPublicKey.getId

/-- A registered value type: its tag and the two policy callbacks.  The
socket-address argument of the C++ callbacks carries no information used by
the secure overlay and is omitted. -/
structure ValueType where
  tag : Nat
  storePolicy : InfoHash → Value → InfoHash → Bool
  editPolicy : InfoHash → Value → Value → InfoHash → Bool

/-- `SecureDht::secureType` (securedht.cpp:91-129): wrap a value type so
that its store policy verifies signatures of signed non-encrypted values
before delegating, and its edit policy enforces owner preservation,
signature validity and sequence-number monotonicity over a signed stored
value. -/
def secureType (inner : ValueType) : ValueType :=
  { inner with
    storePolicy := fun h v nid =>
      if v.isSigned && !v.isEncrypted then
        if !(ownerCheckSignature v.owner v.getToSign v.signature) then false
        else inner.storePolicy h v nid
      else inner.storePolicy h v nid,
    editPolicy := fun h o n nid =>
      if !o.isSigned || o.isEncrypted then inner.editPolicy h o n nid
      else if o.owner ≠ n.owner then false
      else if !(ownerCheckSignature o.owner n.getToSign n.signature) then false
      else if o.seq = n.seq then
        if o.getToSign ≠ n.getToSign then false else true
      else if n.seq < o.seq then false
      else true }

/-- Evaluate an optional `Value::Filter`; a null filter accepts. -/
def filterAccepts (f : Option (Value → Bool)) (v : Value) : Bool :=
  match f with
  | none => true
  | some g => g v

/-- One iteration of the receive pipeline of `SecureDht::getCallbackFilter`
(securedht.cpp:219-255): decrypt encrypted values (dropping them without a
private key, on decryption failure, on a foreign recipient or on a bad
inner signature), verify signed values, forward plain values; surviving
values pass the user filter. -/
def pipelineValue (key : Option PrivateKey) (selfId : InfoHash)
    (f : Option (Value → Bool)) (v : Value) : Option Value :=
  if v.isEncrypted then
    match key with
    | none => none
    | some sk =>
      match decryptValue sk v with
      | Except.error _ => none
      | Except.ok dv =>
        if dv.recipient = selfId then
          if ownerCheckSignature dv.owner dv.getToSign dv.signature then
            if filterAccepts f dv then some dv else none
          else none
        else none
  else if v.isSigned then
    if ownerCheckSignature v.owner v.getToSign v.signature then
      if filterAccepts f v then some v else none
    else none
  else if filterAccepts f v then some v else none

/-- The `tmpvals` accumulation loop of `getCallbackFilter`. -/
def collectValues (key : Option PrivateKey) (selfId : InfoHash)
    (f : Option (Value → Bool)) (acc : List Value) : List Value → List Value
  | [] => acc
  | v :: rest =>
      match pipelineValue key selfId f v with
      | some w => collectValues key selfId f (acc ++ [w]) rest
      | none => collectValues key selfId f acc rest

/-- The wrapped callback built by `SecureDht::getCallbackFilter`
(securedht.cpp:216-260), instrumented to record the calls made to the user
callback: it returns the list of argument batches passed to the user
callback (at most one) together with the boolean handed back to the
underlying DHT. -/
def wrappedGetCallback (key : Option PrivateKey) (selfId : InfoHash)
    (f : Option (Value → Bool)) (cb : Option (List Value → Bool))
    (values : List Value) : List (List Value) × Bool :=
  let tmpvals := collectValues key selfId f [] values
  match cb with
  | some g => if tmpvals = [] then ([], true) else ([tmpvals], g tmpvals)
  | none => ([], true)

/-- The certificate cache `nodesCertificates_`, an association list. -/
def CertCache := List (InfoHash × Certificate)

/-- Cache lookup (`nodesCertificates_.find`). -/
def cacheLookup : CertCache → InfoHash → Option Certificate
  | [], _ => none
  | (h, c) :: rest, n => if h = n then some c else cacheLookup rest n

/-- Cache insert-or-overwrite (`emplace` / assignment to `it->second`). -/
def cacheInsert : CertCache → InfoHash → Certificate → CertCache
  | [], n, c => [(n, c)]
  | (h, c0) :: rest, n, c =>
      if h = n then (h, c) :: rest else (h, c0) :: cacheInsert rest n c

/-- `SecureDht::registerCertificate(node, data)` (securedht.cpp:143-165):
parse the blob (null on failure), check that the certificate id matches the
node id (null on mismatch), otherwise insert or overwrite the cache entry
and return the stored certificate. -/
def registerCertificate (cache : CertCache) (node : InfoHash) (data : Blob) :
    Option Certificate × CertCache :=
  match Certificate.fromBlob data with
  | none => (none, cache)
  | some crt =>
      let h := crt.getPublicKey.getId
      if node = h then (some crt, cacheInsert cache h crt)
      else (none, cache)

/-- An invocation of the `findCertificate` user callback: `success c` is
`cb(cert)`, `failure` is `cb(nullptr)`. -/
inductive CbEvent where
  | success (c : Certificate)
  | failure
deriving DecidableEq, Repr

/-- The state shared between the closures of `findCertificate`: the `found`
flag, the certificate cache, and the trace of user-callback invocations. -/
structure FindState where
  found : Bool
  cache : CertCache
  events : List CbEvent

/-- The value loop inside the `get` callback of `SecureDht::findCertificate`
(securedht.cpp:199-207): register each value's blob until one succeeds, then
set `found`, fire the success callback and return false; return true when no
value of the batch yields a valid certificate. -/
def findCertScanVals (node : InfoHash) (st : FindState) :
    List Value → FindState × Bool
  | [] => (st, true)
  | v :: rest =>
      match registerCertificate st.cache node v.data with
      | (some crt, c2) =>
          ({ found := true, cache := c2,
             events := st.events ++ [CbEvent.success crt] }, false)
      | (none, c2) => findCertScanVals node { st with cache := c2 } rest

/-- The per-batch `get` callback of `findCertificate` (securedht.cpp:196-208):
once `found` is set, later batches are ignored and false is returned. -/
def findCertGetCallback (node : InfoHash) (st : FindState) (vals : List Value) :
    FindState × Bool :=
  if st.found then (st, false) else findCertScanVals node st vals

/-- Deliver a sequence of value batches to the `findCertificate` callback.
The underlying DHT is treated adversarially: it may keep delivering batches
after the callback requested termination. -/
def findCertRunBatches (node : InfoHash) (st : FindState) :
    List (List Value) → FindState
  | [] => st
  | b :: bs => findCertRunBatches node (findCertGetCallback node st b).1 bs

/-- The done callback of `findCertificate` (securedht.cpp:209-212):
`cb(nullptr)` exactly when `found` is still false. -/
def findCertDone (st : FindState) : FindState :=
  if st.found then st else { st with events := st.events ++ [CbEvent.failure] }

/-- A full run of the DHT-`get` phase of `findCertificate`: deliver the
batches, then the completion callback. -/
def findCertGetRun (node : InfoHash) (cache : CertCache)
    (batches : List (List Value)) : FindState :=
  findCertDone (findCertRunBatches node ⟨false, cache, []⟩ batches)

/-- The initial sequence-number bump of `SecureDht::putSigned`
(securedht.cpp:282-287): if a prior announcement exists under the same
(hash, value id) and the new value's seq is not above it, set
`seq = prior.seq + 1`. -/
def putSignedSeqInit (p : Option Value) (v : Value) : Value :=
  match p with
  | some pv => if v.seq ≤ pv.seq then { v with seq := pv.seq + 1 } else v
  | none => v

/-- The value loop of the pre-announcement `get` callback of `putSigned`
(securedht.cpp:291-302): unsigned or foreign-owned values are only logged;
an own signed value with `val.seq <= v.seq` bumps `val.seq = v.seq + 1`. -/
def putSignedScan (selfId : InfoHash) (v : Value) : List Value → Value
  | [] => v
  | w :: rest =>
      if !w.isSigned then putSignedScan selfId v rest
      else if ownerGetId w.owner ≠ selfId then putSignedScan selfId v rest
      else if v.seq ≤ w.seq then putSignedScan selfId { v with seq := w.seq + 1 } rest
      else putSignedScan selfId v rest

/-- All batches delivered by the pre-announcement `get` of `putSigned`. -/
def putSignedScanBatches (selfId : InfoHash) (v : Value)
    (batches : List (List Value)) : Value :=
  batches.foldl (putSignedScan selfId) v

/-- A sequential run of `SecureDht::putSigned` (securedht.cpp:274-309):
bump against the local announcement state, deliver the pre-announcement
`get` batches, and only on `get` completion sign the value; the result is
the value handed to `put`. -/
def putSignedRun (sk : PrivateKey) (p : Option Value)
    (batches : List (List Value)) (v : Value) : Except String Value :=
  signValue sk (putSignedScanBatches (selfIdOf sk) (putSignedSeqInit p v) batches)

/-- The reserved certificate value-type tag (`CERTIFICATE_TYPE` of
default_types.h, not part of the excerpt; the overlay only needs it as a
well-known tag). -/
def CERTIFICATE_TAG : Nat := 8

/-- The observable result of the `SecureDht` constructor: the node id
passed to the underlying `Dht`, the stored identity, the value types
registered as insecure, and the self-certificate announcement issued. -/
structure SecureDhtInit where
  nodeId : InfoHash
  key : Option PrivateKey
  certificate : Option Certificate
  registeredInsecure : List Nat
  announced : Option (InfoHash × Value)
deriving DecidableEq, Repr

/-- The value `Value { CERTIFICATE_TYPE, *certificate_, 1 }` announced by
the constructor: type CERTIFICATE, data the serialized certificate, local
value id 1. -/
def certAnnounceValue (c : Certificate) : Value :=
  { id := 1, vtype := CERTIFICATE_TAG, data := Blob.certBlob c.pk.pk }

/-- `SecureDht::SecureDht` (securedht.cpp:46-82): derive the node id from
the certificate when present (random otherwise), return early when both
sockets are disabled, register the certificate type as insecure, check that
certificate and private key agree (throwing on mismatch), and announce the
own certificate under its id.  `rnd` stands for the random id drawn when no
certificate is given. -/
def constructSecureDht (s s6 : Int) (key : Option PrivateKey)
    (cert : Option Certificate) (rnd : Nat) : Except String SecureDhtInit :=
  let nodeId : InfoHash :=
    match cert with
    | some c => InfoHash.nodeTag c.getPublicKey.pk
    | none => InfoHash.rand rnd
  let base : SecureDhtInit :=
    { nodeId := nodeId, key := key, certificate := cert,
      registeredInsecure := [], announced := none }
  if s < 0 ∧ s6 < 0 then Except.ok base
  else
    let base2 : SecureDhtInit := { base with registeredInsecure := [CERTIFICATE_TAG] }
    match cert with
    | some c =>
        let certId := c.getPublicKey.getId
        match key with
        | some sk =>
            if certId ≠ sk.getPublicKey.getId then
              Except.error "SecureDht: provided certificate does not match private key."
            else
              Except.ok { base2 with announced := some (certId, certAnnounceValue c) }
        | none =>
            Except.ok { base2 with announced := some (certId, certAnnounceValue c) }
    | none => Except.ok base2

/-! ## Sample data used by witnesses and counterexamples -/

/-- A user value type whose edit policy rejects every edit. -/
def innerRejectType : ValueType :=
  ⟨0, fun _ _ _ => true, fun _ _ _ _ => false⟩

/-- The flags of a stored signed, non-encrypted value. -/
def oldFlags : ValueFlags := ⟨true, false, false⟩

/-- The signable region of the sample stored value. -/
def oldPart : SignedPart :=
  ⟨7, 3, oldFlags, some ⟨1⟩, InfoHash.zero, Blob.bytes [1]⟩

/-- A sample stored value, signed by key 1 with a valid signature. -/
def oldSignedValue : Value :=
  { id := 7, vtype := 3, flags := oldFlags, owner := some ⟨1⟩,
    data := Blob.bytes [1], signature := some (1, oldPart), seq := 0 }

/-- A replacement for `oldSignedValue` at the next sequence number; since
the signable region does not cover `seq`, its signature stays valid. -/
def newSignedValue : Value := { oldSignedValue with seq := 1 }

/-! ## Helper lemmas -/

theorem collectValues_eq_filterMap (key : Option PrivateKey) (selfId : InfoHash)
    (f : Option (Value → Bool)) :
    ∀ (l : List Value) (acc : List Value),
      collectValues key selfId f acc l = acc ++ l.filterMap (pipelineValue key selfId f)
  | [], acc => by simp [collectValues]
  | v :: rest, acc => by
      cases hp : pipelineValue key selfId f v <;>
        simp [collectValues, hp, collectValues_eq_filterMap key selfId f rest]

/-- Over a signed, non-encrypted stored value, the wrapped edit policy
reduces to the owner / signature / sequence-number checks of
securedht.cpp:108-126. -/
theorem secure_editPolicy_signed_eq (inner : ValueType) (h : InfoHash)
    (o n : Value) (nid : InfoHash)
    (ho : o.isSigned = true) (he : o.isEncrypted = false) :
    (secureType inner).editPolicy h o n nid =
      if o.owner ≠ n.owner then false
      else if !(ownerCheckSignature o.owner n.getToSign n.signature) then false
      else if o.seq = n.seq then (if o.getToSign ≠ n.getToSign then false else true)
      else if n.seq < o.seq then false
      else true := by
  have hb : (!o.isSigned || o.isEncrypted) = false := by rw [ho, he]; rfl
  simp only [secureType, hb, Bool.false_eq_true, if_false]

/-! ## Claims -/

/-- C5.  The wrapped store policy rejects a signed, non-encrypted value
whose owner signature does not verify over `getToSign()`, and delegates to
the inner store policy in every other case (unsigned, encrypted, or
signed with a valid signature). -/
theorem secure_storePolicy_spec (inner : ValueType) (h : InfoHash) (v : Value)
    (nid : InfoHash) :
    (secureType inner).storePolicy h v nid =
      if v.isSigned && !v.isEncrypted
          && !(ownerCheckSignature v.owner v.getToSign v.signature) then false
      else inner.storePolicy h v nid := by
  by_cases h1 : (v.isSigned && !v.isEncrypted) = true <;>
    by_cases h2 : ownerCheckSignature v.owner v.getToSign v.signature = true <;>
      simp [secureType, h1, h2]

/-- C8.  The wrapped get/listen callback delivers exactly the values
surviving the decryption/verification/user-filter pipeline, in a single
call to the user callback; the call is suppressed when no value survives,
and otherwise the user callback's boolean return is handed back to the
underlying DHT (a null user callback yields `true`). -/
theorem getCallbackFilter_single_delivery (key : Option PrivateKey)
    (selfId : InfoHash) (f : Option (Value → Bool)) (cb : List Value → Bool)
    (values : List Value) :
    (wrappedGetCallback key selfId f (some cb) values =
       if values.filterMap (pipelineValue key selfId f) = [] then ([], true)
       else ([values.filterMap (pipelineValue key selfId f)],
             cb (values.filterMap (pipelineValue key selfId f)))) ∧
    wrappedGetCallback key selfId f none values = ([], true) := by
  constructor
  · simp [wrappedGetCallback, collectValues_eq_filterMap]
  · simp [wrappedGetCallback]

/-- C3.  Over a signed, non-encrypted stored value, the wrapped edit policy
accepts a replacement exactly when the owner is preserved, the new value's
signature verifies over its signable region, and the sequence number either
strictly increases or stays equal with a byte-identical signable region. -/
theorem secure_editPolicy_signed_accept_iff (inner : ValueType) (h : InfoHash)
    (o n : Value) (nid : InfoHash)
    (ho : o.isSigned = true) (he : o.isEncrypted = false) :
    (secureType inner).editPolicy h o n nid = true ↔
      (n.owner = o.owner ∧
       ownerCheckSignature n.owner n.getToSign n.signature = true ∧
       (o.seq < n.seq ∨ (n.seq = o.seq ∧ n.getToSign = o.getToSign))) := by
  rw [secure_editPolicy_signed_eq inner h o n nid ho he]
  split_ifs with h1 h2 h3 h4 h5 <;> simp_all
  · exact fun heq => (h1 heq.symm).elim
  · exact fun hh => h4 hh.symm
  · exact ⟨by omega, fun hh => (h3 hh.symm).elim⟩
  · omega

/-- C4 counterexample.  With passing owner/signature/sequence checks over a
signed stored value, the wrapped edit policy accepts even though the inner
(user-registered) edit policy rejects every edit: the final decision is not
delegated. -/
theorem secure_editPolicy_no_delegation_cex :
    (secureType innerRejectType).editPolicy InfoHash.zero oldSignedValue
      newSignedValue InfoHash.zero = true ∧
    innerRejectType.editPolicy InfoHash.zero oldSignedValue
      newSignedValue InfoHash.zero = false := by
  constructor <;> rfl

/-- C4 (amended).  Over a signed, non-encrypted stored value, when the
owner, signature and sequence-number checks all pass, the wrapped edit
policy returns true directly, whatever the inner edit policy would have
decided: the inner policy is consulted only when the old value is unsigned
or encrypted. -/
theorem secure_editPolicy_accepts_without_inner (inner : ValueType)
    (h : InfoHash) (o n : Value) (nid : InfoHash)
    (ho : o.isSigned = true) (he : o.isEncrypted = false)
    (hown : n.owner = o.owner)
    (hsig : ownerCheckSignature o.owner n.getToSign n.signature = true)
    (hseq : o.seq < n.seq ∨ (n.seq = o.seq ∧ n.getToSign = o.getToSign)) :
    (secureType inner).editPolicy h o n nid = true := by
  rw [secure_editPolicy_signed_eq inner h o n nid ho he]
  split_ifs with h1 h2 h3 h4 h5 <;> simp_all
  omega

/-- C4 witness: the amended claim at the sample values. -/
theorem secure_editPolicy_accepts_without_inner_w :
    (secureType innerRejectType).editPolicy InfoHash.zero oldSignedValue
      newSignedValue InfoHash.zero = true :=
  secure_editPolicy_accepts_without_inner innerRejectType InfoHash.zero
    oldSignedValue newSignedValue InfoHash.zero rfl rfl rfl (by decide)
    (Or.inl (by decide))

/-- C3 witness: the edit-policy characterization at the sample values. -/
theorem secure_editPolicy_signed_accept_iff_w :
    ((secureType innerRejectType).editPolicy InfoHash.zero oldSignedValue
        newSignedValue InfoHash.zero = true ↔
      (newSignedValue.owner = oldSignedValue.owner ∧
       ownerCheckSignature newSignedValue.owner newSignedValue.getToSign
         newSignedValue.signature = true ∧
       (oldSignedValue.seq < newSignedValue.seq ∨
        (newSignedValue.seq = oldSignedValue.seq ∧
         newSignedValue.getToSign = oldSignedValue.getToSign)))) :=
  secure_editPolicy_signed_accept_iff innerRejectType InfoHash.zero
    oldSignedValue newSignedValue InfoHash.zero rfl rfl

/-- C2 counterexample.  With both sockets disabled the constructor returns
before the identity check, so a mismatched identity (certificate id 1,
private-key id 2) does not fail initialization. -/
theorem secure_construct_mismatch_cex :
    constructSecureDht (-1) (-1) (some ⟨2⟩) (some ⟨⟨1⟩⟩) 0 =
      Except.ok { nodeId := InfoHash.nodeTag 1, key := some ⟨2⟩,
                  certificate := some ⟨⟨1⟩⟩, registeredInsecure := [],
                  announced := none } ∧
    (⟨⟨1⟩⟩ : Certificate).getPublicKey.getId ≠
      (⟨2⟩ : PrivateKey).getPublicKey.getId := by
  exact ⟨rfl, by decide⟩

/-- C2 (amended).  Construction raises an error exactly when at least one
socket is enabled (so the constructor does not return early) and both a
private key and a certificate are given whose public-key ids disagree;
with both sockets disabled, or matching ids, or a missing key or
certificate, no identity error is raised. -/
theorem secure_construct_identity_check (s s6 : Int) (key : Option PrivateKey)
    (cert : Option Certificate) (rnd : Nat) :
    (∃ e, constructSecureDht s s6 key cert rnd = Except.error e) ↔
      (¬(s < 0 ∧ s6 < 0) ∧ ∃ sk c, key = some sk ∧ cert = some c ∧
        c.getPublicKey.getId ≠ sk.getPublicKey.getId) := by
  unfold constructSecureDht
  by_cases hs : s < 0 ∧ s6 < 0
  · simp [hs]
  · cases cert with
    | none => simp [hs]
    | some c =>
      cases key with
      | none => simp [hs]
      | some sk =>
        by_cases hid : c.getPublicKey.getId = sk.getPublicKey.getId
        · simp [hs, hid]
        · simp [hs, hid]

/-- Looking up the key just inserted returns the inserted certificate. -/
theorem cacheLookup_insert_self :
    ∀ (c : CertCache) (h : InfoHash) (x : Certificate),
      cacheLookup (cacheInsert c h x) h = some x
  | [], h, x => by simp [cacheInsert, cacheLookup]
  | (h0, c0) :: rest, h, x => by
      by_cases he : h0 = h <;>
        simp [cacheInsert, cacheLookup, he, cacheLookup_insert_self rest h x]

/-- Inserting under one key leaves lookups of other keys unchanged. -/
theorem cacheLookup_insert_other :
    ∀ (c : CertCache) (h h2 : InfoHash) (x : Certificate), h2 ≠ h →
      cacheLookup (cacheInsert c h x) h2 = cacheLookup c h2
  | [], h, h2, x, hne => by
      have h3 : ¬ h = h2 := fun hh => hne hh.symm
      simp [cacheInsert, cacheLookup, h3]
  | (h0, c0) :: rest, h, h2, x, hne => by
      by_cases he : h0 = h
      · subst he
        have h4 : ¬ h0 = h2 := fun hh => hne hh.symm
        simp [cacheInsert, cacheLookup, h4]
      · by_cases he2 : h0 = h2
        · subst he2
          simp [cacheInsert, cacheLookup, he]
        · simp [cacheInsert, cacheLookup, he, he2,
                cacheLookup_insert_other rest h h2 x hne]

/-- C10.  `registerCertificate(node, blob)` returns null and leaves the
cache unchanged when the blob fails to parse or the parsed certificate id
differs from `node`; when they agree it inserts or overwrites the entry for
`node` (leaving all other entries unchanged) and returns the stored
certificate. -/
theorem registerCertificate_spec (cache : CertCache) (node : InfoHash)
    (data : Blob) :
    (Certificate.fromBlob data = none →
       registerCertificate cache node data = (none, cache)) ∧
    (∀ crt, Certificate.fromBlob data = some crt →
       (node ≠ crt.getId → registerCertificate cache node data = (none, cache)) ∧
       (node = crt.getId →
          (registerCertificate cache node data).1 = some crt ∧
          cacheLookup (registerCertificate cache node data).2 node = some crt ∧
          ∀ h2, h2 ≠ node →
            cacheLookup (registerCertificate cache node data).2 h2 =
              cacheLookup cache h2)) := by
  constructor
  · intro hno
    simp [registerCertificate, hno]
  · intro crt hcrt
    constructor
    · intro hne
      simp [registerCertificate, hcrt, Certificate.getId, Certificate.getPublicKey] at *
      simp [hne]
    · intro heq
      subst heq
      simp [registerCertificate, hcrt, Certificate.getId, Certificate.getPublicKey,
            cacheLookup_insert_self]
      intro h2 hne
      exact cacheLookup_insert_other cache crt.getId h2 crt hne

/-- C10 witness: registering a matching certificate blob in the empty
cache stores and returns it. -/
theorem registerCertificate_spec_w :
    (registerCertificate [] (InfoHash.key 5) (Blob.certBlob 5)).1 =
      some ⟨⟨5⟩⟩ ∧
    cacheLookup (registerCertificate [] (InfoHash.key 5) (Blob.certBlob 5)).2
      (InfoHash.key 5) = some ⟨⟨5⟩⟩ := by
  have h := ((registerCertificate_spec [] (InfoHash.key 5)
    (Blob.certBlob 5)).2 ⟨⟨5⟩⟩ rfl).2 rfl
  exact ⟨h.1, h.2.1⟩

/-- A sample plaintext value ("hello") used by witnesses. -/
def helloValue : Value :=
  { id := 7, vtype := 3, data := Blob.bytes [104, 101, 108, 108, 111] }

/-- C9.  `encrypt` fails on an already-encrypted value; otherwise it sets
the recipient, signs the value (so that the inner plaintext is a signed
value with a valid signature: encrypted implies signed) and returns a new
value with the same id whose sole contents are the ciphertext of
`getToEncrypt`, with the encrypted flag set. -/
theorem encrypt_signs_inner_value (sk : PrivateKey) (v : Value) (toPk : PublicKey) :
    (v.flags.encryptedFlag = true →
       encryptValue sk v toPk = Except.error "Data is already encrypted.") ∧
    (v.flags.encryptedFlag = false →
       ∃ v2, signValue sk (v.setRecipient toPk.getId) = Except.ok v2 ∧
         encryptValue sk v toPk =
           Except.ok (Value.setCypher { id := v.id } (toPk.encrypt v2.getToEncrypt)) ∧
         v2.recipient = toPk.getId ∧
         v2.flags.signedFlag = true ∧ v2.flags.encryptedFlag = false ∧
         ownerCheckSignature v2.owner v2.getToSign v2.signature = true ∧
         (Value.setCypher { id := v.id } (toPk.encrypt v2.getToEncrypt)).id = v.id ∧
         (Value.setCypher { id := v.id }
            (toPk.encrypt v2.getToEncrypt)).flags.encryptedFlag = true ∧
         (Value.setCypher { id := v.id } (toPk.encrypt v2.getToEncrypt)).cypher =
           some (toPk.encrypt v2.getToEncrypt)) := by
  constructor
  · intro h
    simp [encryptValue, h]
  · intro h
    have hsv : signValue sk (v.setRecipient toPk.getId) =
        Except.ok { v with owner := some sk.getPublicKey,
                           flags := ⟨true, false, true⟩,
                           recipient := toPk.getId,
                           signature := sk.sign ⟨v.id, v.vtype, ⟨true, false, true⟩,
                             some sk.getPublicKey, toPk.getId, v.data⟩ } := by
      simp [signValue, Value.setRecipient, Value.getToSign, h]
    refine ⟨_, hsv, ?_, rfl, rfl, rfl, ?_, rfl, rfl, rfl⟩
    · simp [encryptValue, h, hsv]
    · simp [ownerCheckSignature, PublicKey.checkSignature, PrivateKey.sign,
            Value.getToSign, PrivateKey.getPublicKey]

/-- C9 witness: encrypting the sample plaintext value toward key 2. -/
theorem encrypt_signs_inner_value_w :
    ∃ v2, signValue ⟨1⟩ (helloValue.setRecipient (⟨2⟩ : PublicKey).getId) =
        Except.ok v2 ∧
      encryptValue ⟨1⟩ helloValue ⟨2⟩ =
        Except.ok (Value.setCypher { id := helloValue.id }
          ((⟨2⟩ : PublicKey).encrypt v2.getToEncrypt)) ∧
      v2.recipient = (⟨2⟩ : PublicKey).getId ∧
      v2.flags.signedFlag = true ∧ v2.flags.encryptedFlag = false ∧
      ownerCheckSignature v2.owner v2.getToSign v2.signature = true ∧
      (Value.setCypher { id := helloValue.id }
        ((⟨2⟩ : PublicKey).encrypt v2.getToEncrypt)).id = helloValue.id ∧
      (Value.setCypher { id := helloValue.id }
        ((⟨2⟩ : PublicKey).encrypt v2.getToEncrypt)).flags.encryptedFlag = true ∧
      (Value.setCypher { id := helloValue.id }
        ((⟨2⟩ : PublicKey).encrypt v2.getToEncrypt)).cypher =
        some ((⟨2⟩ : PublicKey).encrypt v2.getToEncrypt) :=
  (encrypt_signs_inner_value ⟨1⟩ helloValue ⟨2⟩).2 rfl

/-- C1.  A value encrypted toward an overlay B (via the public key of B's
certificate, which matches B's private key) survives B's receive pipeline:
decryption succeeds, the decrypted value's recipient equals B's self id,
the inner signature verifies, and B's user callback is invoked once with
exactly one value whose data is the original plaintext. -/
theorem secure_putEncrypted_delivers_to_recipient
    (skA skB : PrivateKey) (cert : Certificate) (v : Value)
    (cb : List Value → Bool)
    (hcert : cert.getPublicKey = skB.getPublicKey)
    (hv : v.flags.encryptedFlag = false) :
    ∃ nv dv,
      encryptValue skA v cert.getPublicKey = Except.ok nv ∧
      collectValues (some skB) (selfIdOf skB) none [] [nv] = [dv] ∧
      dv.recipient = selfIdOf skB ∧
      dv.data = v.data ∧
      dv.owner = some skA.getPublicKey ∧
      wrappedGetCallback (some skB) (selfIdOf skB) none (some cb) [nv] =
        ([[dv]], cb [dv]) := by
  rw [hcert]
  have hsv : signValue skA (v.setRecipient skB.getPublicKey.getId) =
      Except.ok { v with owner := some skA.getPublicKey,
                         flags := ⟨true, false, true⟩,
                         recipient := skB.getPublicKey.getId,
                         signature := skA.sign ⟨v.id, v.vtype, ⟨true, false, true⟩,
                           some skA.getPublicKey, skB.getPublicKey.getId, v.data⟩ } := by
    simp [signValue, Value.setRecipient, Value.getToSign, hv]
  have henc : encryptValue skA v skB.getPublicKey =
      Except.ok (Value.setCypher { id := v.id }
        ⟨skB.getPublicKey,
         (⟨v.id, v.vtype, ⟨true, false, true⟩, some skA.getPublicKey,
           skB.getPublicKey.getId, v.data⟩,
          skA.sign ⟨v.id, v.vtype, ⟨true, false, true⟩, some skA.getPublicKey,
            skB.getPublicKey.getId, v.data⟩)⟩) := by
    simp [encryptValue, hv, hsv, Value.getToEncrypt, Value.getToSign,
          PublicKey.encrypt]
  refine ⟨_, { id := v.id, vtype := v.vtype, flags := ⟨true, false, true⟩,
               owner := some skA.getPublicKey,
               recipient := skB.getPublicKey.getId, data := v.data,
               cypher := none,
               signature := skA.sign ⟨v.id, v.vtype, ⟨true, false, true⟩,
                 some skA.getPublicKey, skB.getPublicKey.getId, v.data⟩,
               seq := 0 }, henc, ?_, rfl, rfl, rfl, ?_⟩
  · simp [collectValues, pipelineValue, Value.isEncrypted, Value.setCypher,
          decryptValue, unpackDecrypted, selfIdOf, ownerCheckSignature,
          PublicKey.checkSignature, PrivateKey.sign, Value.getToSign,
          PrivateKey.getPublicKey, PublicKey.getId, filterAccepts]
  · simp [wrappedGetCallback, collectValues, pipelineValue, Value.isEncrypted,
          Value.setCypher, decryptValue, unpackDecrypted, selfIdOf,
          ownerCheckSignature, PublicKey.checkSignature, PrivateKey.sign,
          Value.getToSign, PrivateKey.getPublicKey, PublicKey.getId,
          filterAccepts]

/-- C1 witness: key 1 encrypts the sample plaintext toward the identity
(key 2, certificate of key 2); the pipeline of that identity delivers it. -/
theorem secure_putEncrypted_delivers_to_recipient_w :
    ∃ nv dv,
      encryptValue ⟨1⟩ helloValue (Certificate.getPublicKey ⟨⟨2⟩⟩) = Except.ok nv ∧
      collectValues (some ⟨2⟩) (selfIdOf ⟨2⟩) none [] [nv] = [dv] ∧
      dv.recipient = selfIdOf ⟨2⟩ ∧
      dv.data = helloValue.data ∧
      dv.owner = some (PrivateKey.getPublicKey ⟨1⟩) ∧
      wrappedGetCallback (some ⟨2⟩) (selfIdOf ⟨2⟩) none (some fun _ => true) [nv] =
        ([[dv]], (fun _ => true : List Value → Bool) [dv]) :=
  secure_putEncrypted_delivers_to_recipient ⟨1⟩ ⟨2⟩ ⟨⟨2⟩⟩ helloValue
    (fun _ => true) rfl rfl

/-- The scan loop of `putSigned` never decreases the sequence number. -/
theorem putSignedScan_seq_mono (selfId : InfoHash) :
    ∀ (l : List Value) (v : Value), v.seq ≤ (putSignedScan selfId v l).seq
  | [], v => le_refl _
  | w :: rest, v => by
      simp only [putSignedScan]
      split_ifs with h1 h2 h3
      · exact putSignedScan_seq_mono selfId rest v
      · exact putSignedScan_seq_mono selfId rest v
      · have hm := putSignedScan_seq_mono selfId rest { v with seq := w.seq + 1 }
        have hs : ({ v with seq := w.seq + 1 } : Value).seq = w.seq + 1 := rfl
        rw [hs] at hm
        omega
      · exact putSignedScan_seq_mono selfId rest v

/-- After the scan loop of `putSigned`, the sequence number is strictly
above that of every scanned value signed by the own key. -/
theorem putSignedScan_seq_gt (selfId : InfoHash) :
    ∀ (l : List Value) (v w : Value), w ∈ l → w.isSigned = true →
      ownerGetId w.owner = selfId → w.seq < (putSignedScan selfId v l).seq
  | [], _, w, hw, _, _ => absurd hw (List.not_mem_nil w)
  | u :: rest, v, w, hw, hsgn, hown => by
      rcases List.mem_cons.mp hw with heq | hmem
      · subst heq
        simp only [putSignedScan]
        split_ifs with h1 h2 h3
        · rw [hsgn] at h1; simp at h1
        · exact absurd hown h2
        · have hm := putSignedScan_seq_mono selfId rest
            { v with seq := w.seq + 1 }
          have hs : ({ v with seq := w.seq + 1 } : Value).seq = w.seq + 1 := rfl
          rw [hs] at hm
          omega
        · have hm := putSignedScan_seq_mono selfId rest v
          omega
      · simp only [putSignedScan]
        split_ifs with h1 h2 h3 <;>
          exact putSignedScan_seq_gt selfId rest _ w hmem hsgn hown

/-- Batch version of `putSignedScan_seq_mono`. -/
theorem putSignedScanBatches_seq_mono (selfId : InfoHash) :
    ∀ (bs : List (List Value)) (v : Value),
      v.seq ≤ (putSignedScanBatches selfId v bs).seq
  | [], v => le_refl _
  | b :: bs, v => by
      have h1 := putSignedScan_seq_mono selfId b v
      have h2 := putSignedScanBatches_seq_mono selfId bs (putSignedScan selfId v b)
      simp only [putSignedScanBatches, List.foldl_cons] at *
      omega

/-- Batch version of `putSignedScan_seq_gt`. -/
theorem putSignedScanBatches_seq_gt (selfId : InfoHash) :
    ∀ (bs : List (List Value)) (v : Value) (b : List Value) (w : Value),
      b ∈ bs → w ∈ b → w.isSigned = true → ownerGetId w.owner = selfId →
      w.seq < (putSignedScanBatches selfId v bs).seq
  | [], _, b, _, hb, _, _, _ => absurd hb (List.not_mem_nil b)
  | b0 :: bs, v, b, w, hb, hw, hsgn, hown => by
      rcases List.mem_cons.mp hb with heq | hmem
      · subst heq
        have h1 := putSignedScan_seq_gt selfId b v w hw hsgn hown
        have h2 := putSignedScanBatches_seq_mono selfId bs (putSignedScan selfId v b)
        simp only [putSignedScanBatches, List.foldl_cons] at *
        omega
      · simp only [putSignedScanBatches, List.foldl_cons]
        exact putSignedScanBatches_seq_gt selfId bs _ b w hmem hw hsgn hown

/-- The scan loop only touches the sequence number, not the flags. -/
theorem putSignedScan_flags (selfId : InfoHash) :
    ∀ (l : List Value) (v : Value), (putSignedScan selfId v l).flags = v.flags
  | [], v => rfl
  | w :: rest, v => by
      simp only [putSignedScan]
      split_ifs with h1 h2 h3 <;>
        simp [putSignedScan_flags selfId rest]

/-- Batch version of `putSignedScan_flags`. -/
theorem putSignedScanBatches_flags (selfId : InfoHash) :
    ∀ (bs : List (List Value)) (v : Value),
      (putSignedScanBatches selfId v bs).flags = v.flags
  | [], v => rfl
  | b :: bs, v => by
      have h1 := putSignedScan_flags selfId b v
      have h2 := putSignedScanBatches_flags selfId bs (putSignedScan selfId v b)
      simp only [putSignedScanBatches, List.foldl_cons] at *
      rw [h2, h1]

/-- The initial bump of `putSigned` only touches the sequence number. -/
theorem putSignedSeqInit_flags (p : Option Value) (v : Value) :
    (putSignedSeqInit p v).flags = v.flags := by
  cases p with
  | none => rfl
  | some pv =>
      simp only [putSignedSeqInit]
      split_ifs <;> rfl

/-- The initial bump of `putSigned` moves strictly above a prior local
announcement. -/
theorem putSignedSeqInit_gt (pv : Value) (v : Value) :
    pv.seq < (putSignedSeqInit (some pv) v).seq := by
  simp only [putSignedSeqInit]
  split_ifs with h
  · exact Nat.lt_succ_self pv.seq
  · omega

/-- C7.  `putSigned` succeeds on a non-encrypted value and puts a signed
value (owned by the own key, with a valid signature) whose sequence number
is strictly greater than any prior local announcement's and strictly
greater than that of every own signed value observed during the
pre-announcement get; the value is signed only after the get completed. -/
theorem putSigned_seq_strictly_increases (sk : PrivateKey) (p : Option Value)
    (batches : List (List Value)) (v : Value)
    (hv : v.flags.encryptedFlag = false) :
    ∃ res, putSignedRun sk p batches v = Except.ok res ∧
      res.isSigned = true ∧ res.owner = some sk.getPublicKey ∧
      ownerCheckSignature res.owner res.getToSign res.signature = true ∧
      (∀ pv, p = some pv → pv.seq < res.seq) ∧
      (∀ b, b ∈ batches → ∀ w, w ∈ b → w.isSigned = true →
        ownerGetId w.owner = selfIdOf sk → w.seq < res.seq) := by
  have hfl : (putSignedScanBatches (selfIdOf sk) (putSignedSeqInit p v)
      batches).flags = v.flags := by
    rw [putSignedScanBatches_flags, putSignedSeqInit_flags]
  have hsv : signValue sk (putSignedScanBatches (selfIdOf sk)
        (putSignedSeqInit p v) batches) =
      Except.ok { putSignedScanBatches (selfIdOf sk) (putSignedSeqInit p v)
            batches with
          owner := some sk.getPublicKey,
          flags := ⟨true, false, (putSignedScanBatches (selfIdOf sk)
            (putSignedSeqInit p v) batches).flags.recipientFlag⟩,
          signature := sk.sign ⟨(putSignedScanBatches (selfIdOf sk)
              (putSignedSeqInit p v) batches).id,
            (putSignedScanBatches (selfIdOf sk) (putSignedSeqInit p v)
              batches).vtype,
            ⟨true, false, (putSignedScanBatches (selfIdOf sk)
              (putSignedSeqInit p v) batches).flags.recipientFlag⟩,
            some sk.getPublicKey,
            (putSignedScanBatches (selfIdOf sk) (putSignedSeqInit p v)
              batches).recipient,
            (putSignedScanBatches (selfIdOf sk) (putSignedSeqInit p v)
              batches).data⟩ } := by
    rw [signValue, if_neg]
    · simp [Value.getToSign]
    · rw [hfl, hv]
      simp
  refine ⟨_, hsv, ?_, ?_, ?_, ?_, ?_⟩
  · rfl
  · rfl
  · simp [ownerCheckSignature, PublicKey.checkSignature, PrivateKey.sign,
          Value.getToSign, PrivateKey.getPublicKey]
  · intro pv hp
    subst hp
    show pv.seq < (putSignedScanBatches (selfIdOf sk)
      (putSignedSeqInit (some pv) v) batches).seq
    have h1 := putSignedSeqInit_gt pv v
    have h2 := putSignedScanBatches_seq_mono (selfIdOf sk) batches
      (putSignedSeqInit (some pv) v)
    omega
  · intro b hb w hw hsgn hown
    show w.seq < (putSignedScanBatches (selfIdOf sk)
      (putSignedSeqInit p v) batches).seq
    exact putSignedScanBatches_seq_gt (selfIdOf sk) batches
      (putSignedSeqInit p v) b w hb hw hsgn hown

/-- A prior local announcement at sequence number 5 (C7 witness data). -/
def priorValue : Value := { id := 7, seq := 5 }

/-- An own signed value observed at sequence number 9 (C7 witness data). -/
def ownSeqValue : Value :=
  { id := 7, flags := ⟨true, false, false⟩, owner := some ⟨1⟩, seq := 9 }

/-- C7 witness: key 1 announces the sample value over a prior announcement
at seq 5 and an observed own value at seq 9. -/
theorem putSigned_seq_strictly_increases_w :
    ∃ res, putSignedRun ⟨1⟩ (some priorValue) [[ownSeqValue]] helloValue =
        Except.ok res ∧
      res.isSigned = true ∧
      res.owner = some (PrivateKey.getPublicKey ⟨1⟩) ∧
      ownerCheckSignature res.owner res.getToSign res.signature = true ∧
      (∀ pv, some priorValue = some pv → pv.seq < res.seq) ∧
      (∀ b, b ∈ [[ownSeqValue]] → ∀ w, w ∈ b → w.isSigned = true →
        ownerGetId w.owner = selfIdOf ⟨1⟩ → w.seq < res.seq) :=
  putSigned_seq_strictly_increases ⟨1⟩ (some priorValue) [[ownSeqValue]]
    helloValue rfl

/-- The number of successful `findCertificate` callback invocations in an
event trace. -/
def successCount (evs : List CbEvent) : Nat :=
  List.countP (fun e => match e with
    | CbEvent.success _ => true
    | CbEvent.failure => false) evs

/-- Scanning one batch either leaves `found` and the event trace unchanged
or sets `found` and appends exactly one success event. -/
theorem findCertScanVals_spec (node : InfoHash) :
    ∀ (vals : List Value) (st : FindState),
      (((findCertScanVals node st vals).1.found = st.found ∧
        (findCertScanVals node st vals).1.events = st.events) ∨
       ((findCertScanVals node st vals).1.found = true ∧
        ∃ c, (findCertScanVals node st vals).1.events =
          st.events ++ [CbEvent.success c]))
  | [], st => Or.inl ⟨rfl, rfl⟩
  | v :: rest, st => by
      simp only [findCertScanVals]
      rcases hreg : registerCertificate st.cache node v.data with ⟨r, c2⟩
      cases r with
      | some crt => exact Or.inr ⟨rfl, crt, rfl⟩
      | none =>
          have ih := findCertScanVals_spec node rest { st with cache := c2 }
          simpa using ih

/-- Once `found` is set, the per-batch callback leaves the state alone. -/
theorem findCertRunBatches_found (node : InfoHash) :
    ∀ (bs : List (List Value)) (st : FindState), st.found = true →
      findCertRunBatches node st bs = st
  | [], st, h => rfl
  | b :: bs, st, h => by
      simp only [findCertRunBatches, findCertGetCallback, h, if_true]
      exact findCertRunBatches_found node bs st h

/-- Delivering any sequence of batches from a not-yet-found state appends
at most one success event. -/
theorem findCertRunBatches_spec (node : InfoHash) :
    ∀ (bs : List (List Value)) (st : FindState), st.found = false →
      (((findCertRunBatches node st bs).found = false ∧
        (findCertRunBatches node st bs).events = st.events) ∨
       ((findCertRunBatches node st bs).found = true ∧
        ∃ c, (findCertRunBatches node st bs).events =
          st.events ++ [CbEvent.success c]))
  | [], st, h => Or.inl ⟨h, rfl⟩
  | b :: bs, st, h => by
      simp only [findCertRunBatches, findCertGetCallback, h,
        Bool.false_eq_true, if_false]
      rcases findCertScanVals_spec node b st with ⟨hf, he⟩ | ⟨hf, c, he⟩
      · rcases findCertRunBatches_spec node bs (findCertScanVals node st b).1
          (by rw [hf, h]) with ⟨hf2, he2⟩ | ⟨hf2, c2, he2⟩
        · exact Or.inl ⟨hf2, by rw [he2, he]⟩
        · exact Or.inr ⟨hf2, c2, by rw [he2, he]⟩
      · rw [findCertRunBatches_found node bs _ hf]
        exact Or.inr ⟨hf, c, he⟩

/-- C6.  Across a full run of the DHT-get phase of `findCertificate` —
with the underlying DHT free to deliver any number of batches, each
containing any values — the success callback fires at most once, and the
failure callback (`cb(nullptr)`) fires exactly when no success callback
fired. -/
theorem findCertificate_at_most_one_success (node : InfoHash)
    (cache : CertCache) (batches : List (List Value)) :
    successCount (findCertGetRun node cache batches).events ≤ 1 ∧
    (CbEvent.failure ∈ (findCertGetRun node cache batches).events ↔
      successCount (findCertGetRun node cache batches).events = 0) := by
  unfold findCertGetRun findCertDone
  rcases findCertRunBatches_spec node batches ⟨false, cache, []⟩ rfl with
    ⟨hf, he⟩ | ⟨hf, c, he⟩
  · simp [hf, he, successCount]
  · simp [hf, he, successCount]

end OpenDht
